import Mathlib

/-!
The NamedKeystore trust registry of jwtauth.

A shallow embedding of `v2/pkg/named_keystore.go`, followed by a model of the
fixed keystore `SimpleKeystore`, of which only the test file is available.

The Go type `NamedKeystore` holds a read/write lock and a lazily created
`map[string]interface{}`.  Every method takes the lock for its whole body, so
each call is one atomic step; the embedding is the sequential semantics of
those steps as pure functions on the store.

Modelling decisions:

* A Go `interface{}` value is a `Value`.  Values are represented up to
  `reflect.DeepEqual`: two values are the same term exactly when Go reports
  them deeply equal.  A `[]byte` keeps the distinction between the nil slice
  and a non-nil slice, which `reflect.DeepEqual` observes.  Big integers are
  represented by their numeric value, pointers to keys are non-nil and are
  represented by the struct they point to.  Values that Go does not report
  deeply equal to themselves (functions, NaN) are left out; none of them is
  of a type that `Trust` stores.
* A Go `string` used as key material is its byte sequence; an issuer is a
  `String` (issuers are only ever compared for equality).
* The interface `privateKey` is open: any dynamic type with a method
  `Public() crypto.PublicKey` satisfies it.  `Value.signer` stands for a value
  of any such type other than the two standard private key types, together
  with the value its `Public()` returns.
* Key material is immutable once handed to the store.
-/

namespace Jwtauth

/-- Struct `rsa.PublicKey`: modulus `N` and public exponent `E`. -/
structure RSAPublicKey where
  N : Int
  E : Int
  deriving DecidableEq, Repr

/-- Struct `ecdsa.PublicKey`: the curve (by name) and the point `X`, `Y`. -/
structure ECDSAPublicKey where
  Curve : String
  X : Int
  Y : Int
  deriving DecidableEq, Repr

/-- Struct `rsa.PrivateKey`: the embedded public key, the private exponent and
the prime factors. -/
structure RSAPrivateKey where
  PublicKey : RSAPublicKey
  D : Int
  Primes : List Int
  deriving DecidableEq, Repr

/-- Struct `ecdsa.PrivateKey`: the embedded public key and the secret scalar. -/
structure ECDSAPrivateKey where
  PublicKey : ECDSAPublicKey
  D : Int
  deriving DecidableEq, Repr

/-- Dynamic values that a caller can pass as `key interface{}`. -/
inductive Value where
  /-- The nil interface value; also what a map lookup of a missing issuer yields. -/
  | nil
  /-- A `[]byte`; `none` is the nil slice, `some l` a non-nil slice holding `l`. -/
  | bytes (b : Option (List UInt8))
  /-- A `string`, given by its bytes. -/
  | str (s : List UInt8)
  /-- A `*rsa.PublicKey`. -/
  | rsaPublicKey (k : RSAPublicKey)
  /-- A `*ecdsa.PublicKey`. -/
  | ecdsaPublicKey (k : ECDSAPublicKey)
  /-- A `*rsa.PrivateKey`. -/
  | rsaPrivateKey (k : RSAPrivateKey)
  /-- A `*ecdsa.PrivateKey`. -/
  | ecdsaPrivateKey (k : ECDSAPrivateKey)
  /-- An `int`, such as the `666` of the test suite. -/
  | int (n : Int)
  /-- A value of any other dynamic type that has a method `Public()`; `pub` is
  what that method returns, `typeName` and `id` identify the value. -/
  | signer (typeName : String) (id : Nat) (pub : Value)
  /-- A value of any other dynamic type without a method `Public()`. -/
  | other (typeName : String) (id : Nat)
  deriving DecidableEq, Repr

/-- Function `reflect.DeepEqual` on the modelled values. -/
def DeepEqual (x y : Value) : Bool := decide (x = y)

/-- Interface `privateKey` (lines 23-25): `some p` when the dynamic type of the
value has a method `Public()`, with `p` its result; `none` when it has not. -/
def privateKey : Value → Option Value
  | .rsaPrivateKey k => some (.rsaPublicKey k.PublicKey)
  | .ecdsaPrivateKey k => some (.ecdsaPublicKey k.PublicKey)
  | .signer _ _ pub => some pub
  | _ => none

/-- The first type switch of `Trust` (lines 52-57): a private key becomes its
public key, a string becomes bytes, everything else is left as it is. -/
def normalize (key : Value) : Value :=
  match privateKey key with
  | some pub => pub
  | none =>
    match key with
    | .str kt => .bytes (some kt)
    | _ => key

/-- The cases of the second type switch of `Trust` (line 60):
`*rsa.PublicKey`, `*ecdsa.PublicKey` and `[]byte`. -/
def isKeyType : Value → Bool
  | .rsaPublicKey _ => true
  | .ecdsaPublicKey _ => true
  | .bytes _ => true
  | _ => false

/-- The two errors `Trust` can return, by the format string that builds them. -/
inductive TrustError where
  /-- Line 48: "already added a key for issuer '%s'; call RemoveKey first". -/
  | alreadyAdded (issuer : String)
  /-- Line 63: "unsupported key type %T", with the value whose type is printed. -/
  | unsupportedKeyType (key : Value)
  deriving DecidableEq, Repr

/-- A Go `map[string]interface{}` that is not nil: a partial function from
issuers to values. -/
abbrev KeyMap := String → Option Value

/-- Struct `NamedKeystore` (lines 18-21) without its lock: `keys` is `none`
while the map is nil. -/
structure NamedKeystore where
  keys : Option KeyMap

/-- The zero value `&NamedKeystore{}`. -/
def NamedKeystore.zero : NamedKeystore := ⟨none⟩

/-- Map assignment `m[issuer] = v`. -/
def KeyMap.set (m : KeyMap) (issuer : String) (v : Value) : KeyMap :=
  fun j => if j = issuer then some v else m j

/-- Builtin `delete(m, issuer)`. -/
def KeyMap.delete (m : KeyMap) (issuer : String) : KeyMap :=
  fun j => if j = issuer then none else m j

/-- Method `Trust` (lines 39-67).  Returns the store after the call and the
returned error, `none` for a nil error. -/
def Trust (nk : NamedKeystore) (issuer : String) (key : Value) :
    NamedKeystore × Option TrustError :=
  -- lines 43-45: create the map when it is nil
  let keys : KeyMap := match nk.keys with
    | some m => m
    | none => fun _ => none
  -- line 47: the issuer is present and holds a value that is not deeply equal
  let conflict : Bool := match keys issuer with
    | some old => !DeepEqual old key
    | none => false
  if conflict then
    (⟨some keys⟩, some (.alreadyAdded issuer))
  else
    -- lines 52-57
    let kt := normalize key
    -- lines 59-64
    if isKeyType kt then (⟨some (keys.set issuer kt)⟩, none)
    else (⟨some keys⟩, some (.unsupportedKeyType kt))

/-- Method `RevokeTrust` (lines 70-80). -/
def RevokeTrust (nk : NamedKeystore) (issuer : String) : NamedKeystore :=
  match nk.keys with
  | none => nk
  | some m => ⟨some (m.delete issuer)⟩

/-- Method `Get` (lines 83-92): the stored value, or the nil interface. -/
def Get (nk : NamedKeystore) (issuer : String) : Value :=
  match nk.keys with
  | some m =>
    match m issuer with
    | some v => v
    | none => .nil
  | none => .nil

/-- The bytes of a string literal, for writing examples. -/
def utf8 (s : String) : List UInt8 := s.toUTF8.data.toList

/-- Test fixture `hmacKey1`. -/
def hmacKey1 : Value := .bytes (some (utf8 "I like tacos"))

/-- Test fixture `hmacKey2`. -/
def hmacKey2 : Value := .bytes (some (utf8 "I hate oysters"))

/-- The input types named by the doc comment of `Trust` (lines 30-38):
`[]byte`, `*rsa.PublicKey`, `*ecdsa.PublicKey`, and the converted `string`,
`*rsa.PrivateKey`, `*ecdsa.PrivateKey`. -/
def isAcceptedShape : Value → Bool
  | .bytes _ => true
  | .str _ => true
  | .rsaPublicKey _ => true
  | .ecdsaPublicKey _ => true
  | .rsaPrivateKey _ => true
  | .ecdsaPrivateKey _ => true
  | _ => false

/-- Shapes that pass both type switches of `Trust` (lines 52-64): a byte
sequence, a string, an RSA or EC public key, or a value with a method
`Public()` whose result is a byte sequence or an RSA or EC public key. -/
def isSupported : Value → Bool
  | .bytes _ => true
  | .str _ => true
  | .rsaPublicKey _ => true
  | .ecdsaPublicKey _ => true
  | v =>
    match privateKey v with
    | some pub => isKeyType pub
    | none => false

/-- One call on a store. -/
inductive Op where
  | trust (issuer : String) (key : Value)
  | revokeTrust (issuer : String)
  deriving DecidableEq, Repr

/-- The store after one call; the error of a `Trust` is dropped. -/
def step (nk : NamedKeystore) : Op → NamedKeystore
  | .trust issuer key => (Trust nk issuer key).1
  | .revokeTrust issuer => RevokeTrust nk issuer

/-- The store after a sequence of calls, first call first. -/
def run (nk : NamedKeystore) (ops : List Op) : NamedKeystore :=
  ops.foldl step nk

/-- A store state that some finite sequence of `Trust` and `RevokeTrust` calls
produces from the zero value. -/
def Reachable (nk : NamedKeystore) : Prop :=
  ∃ ops : List Op, run NamedKeystore.zero ops = nk

/-- Every value held in the map is of one of the three stored key types. -/
def StoredKeysOnly (nk : NamedKeystore) : Prop :=
  ∀ m, nk.keys = some m → ∀ issuer v, m issuer = some v → isKeyType v = true

/-- The shapes listed as accepted by the type-rejection property: a byte
sequence, a text, an RSA or EC public key, or a private key (a value with a
method `Public()`) whose public key is an RSA or EC public key. -/
def isListedShape : Value → Bool
  | .bytes _ => true
  | .str _ => true
  | .rsaPublicKey _ => true
  | .ecdsaPublicKey _ => true
  | v =>
    match privateKey v with
    | some (.rsaPublicKey _) => true
    | some (.ecdsaPublicKey _) => true
    | _ => false

/-- A small RSA private key for examples (textbook numbers). -/
def sampleRSAPrivateKey : RSAPrivateKey := ⟨⟨3233, 17⟩, 2753, [61, 53]⟩

/-- A small EC private key for examples; the numbers only label the key. -/
def sampleECDSAPrivateKey : ECDSAPrivateKey := ⟨⟨"P-256", 5, 1⟩, 7⟩

/-- A value of a caller-defined type whose `Public()` returns the bytes of
`hmacKey1`. -/
def sampleByteSigner : Value := .signer "secretHandle" 0 hmacKey1

/-- The store of the test suite after its `BeforeEach`: the zero value after
`Trust("moo", hmacKey1)`. -/
def testStore : NamedKeystore := (Trust NamedKeystore.zero "moo" hmacKey1).1

/-- Serial execution of `Trust` calls for one issuer, one key per call, in
the order of the list: the store after the last call and the error each call
returned, in call order. -/
def trustAll (nk : NamedKeystore) (issuer : String) :
    List Value → NamedKeystore × List (Option TrustError)
  | [] => (nk, [])
  | k :: ks =>
    let r := Trust nk issuer k
    let rest := trustAll r.1 issuer ks
    (rest.1, r.2 :: rest.2)

/-- Modelled from the spec: the fixed keystore `SimpleKeystore`, whose source
file is missing (only `pkg/simple_keystore_test.go` is present).  It holds
exactly one key, the field `Key` that the test sets at construction. -/
structure SimpleKeystore where
  Key : Value

/-- Modelled from the spec: the conflict error of the fixed keystore, returned
when the asserted key is not equal to the fixed key. -/
inductive SimpleTrustError where
  | conflict
  deriving DecidableEq, Repr

/-- Modelled from the spec: `Trust` of the missing fixed keystore.  It
"succeeds (no-op) if keyMaterial is equal to the fixed key; otherwise fails
with a conflict error", the issuer being ignored; equality is by value. -/
def SimpleKeystore.Trust (sk : SimpleKeystore) (_issuer : String) (key : Value) :
    SimpleKeystore × Option SimpleTrustError :=
  if DeepEqual key sk.Key then (sk, none) else (sk, some .conflict)

/-- Modelled from the spec: `RevokeTrust` of the missing fixed keystore, which
"always succeeds and has no observable effect". -/
def SimpleKeystore.RevokeTrust (sk : SimpleKeystore) (_issuer : String) : SimpleKeystore :=
  sk

/-- Modelled from the spec: `Get` of the missing fixed keystore, which
"returns the fixed key regardless of the value of issuer". -/
def SimpleKeystore.Get (sk : SimpleKeystore) (_issuer : String) : Value :=
  sk.Key

/-- The fixed keystore after one call; the error of a `Trust` is dropped. -/
def SimpleKeystore.step (sk : SimpleKeystore) : Op → SimpleKeystore
  | .trust issuer key => (sk.Trust issuer key).1
  | .revokeTrust issuer => sk.RevokeTrust issuer

/-- The fixed keystore after a sequence of calls, first call first. -/
def SimpleKeystore.run (sk : SimpleKeystore) (ops : List Op) : SimpleKeystore :=
  ops.foldl SimpleKeystore.step sk

/-- The store of `pkg/simple_keystore_test.go`: `&SimpleKeystore{Key: hmacKey1}`. -/
def simpleTestStore : SimpleKeystore := ⟨hmacKey1⟩

/-! Basic facts about the embedding -/

theorem DeepEqual_iff (x y : Value) : DeepEqual x y = true ↔ x = y := by
  simp [DeepEqual]

theorem normalize_of_isKeyType {v : Value} (h : isKeyType v = true) : normalize v = v := by
  cases v <;> simp_all [isKeyType, normalize, privateKey]

theorem isKeyType_ne_nil {v : Value} (h : isKeyType v = true) : v ≠ Value.nil := by
  cases v <;> simp_all [isKeyType]

theorem isSupported_iff (v : Value) : isSupported v = isKeyType (normalize v) := by
  cases v <;> simp [isSupported, isKeyType, normalize, privateKey]

theorem isSupported_of_isAcceptedShape {v : Value} (h : isAcceptedShape v = true) :
    isSupported v = true := by
  cases v <;> simp_all [isSupported, isAcceptedShape, isKeyType, privateKey]

/-- A successful `Trust` passed the second type switch and stored the
normalized key under the issuer. -/
theorem Trust_ok {nk : NamedKeystore} {issuer : String} {key : Value}
    (h : (Trust nk issuer key).2 = none) :
    isKeyType (normalize key) = true ∧
      ∃ m : KeyMap, (Trust nk issuer key).1 = ⟨some (m.set issuer (normalize key))⟩ := by
  unfold Trust at h ⊢
  dsimp only at h ⊢
  split_ifs at h ⊢ with h1 h2
  exact ⟨h2, _, rfl⟩

theorem Get_set_same (m : KeyMap) (issuer : String) (v : Value) :
    Get ⟨some (m.set issuer v)⟩ issuer = v := by
  simp [Get, KeyMap.set]

/-- A failing `Trust` leaves every lookup as it was. -/
theorem Trust_err_Get {nk : NamedKeystore} {issuer : String} {key : Value}
    (h : (Trust nk issuer key).2 ≠ none) (j : String) :
    Get (Trust nk issuer key).1 j = Get nk j := by
  unfold Trust at h ⊢
  dsimp only at h ⊢
  split_ifs at h ⊢ with h1 h2
  · cases hk : nk.keys <;> simp [Get, hk]
  · exact absurd rfl h
  · cases hk : nk.keys <;> simp [Get, hk]

/-- Neither call touches another issuer. -/
theorem Trust_Get_other (nk : NamedKeystore) {issuer j : String} (key : Value)
    (hj : j ≠ issuer) : Get (Trust nk issuer key).1 j = Get nk j := by
  unfold Trust
  dsimp only
  split_ifs with h1 h2
  · cases hk : nk.keys <;> simp [Get, hk]
  · cases hk : nk.keys <;> simp [Get, hk, KeyMap.set, hj]
  · cases hk : nk.keys <;> simp [Get, hk]

theorem RevokeTrust_Get_other (nk : NamedKeystore) {issuer j : String}
    (hj : j ≠ issuer) : Get (RevokeTrust nk issuer) j = Get nk j := by
  unfold RevokeTrust
  cases hk : nk.keys <;> simp [Get, hk, KeyMap.delete, hj]

/-- What `Trust` returns when the issuer holds `old`. -/
theorem Trust_present {m : KeyMap} {issuer : String} {old : Value} (key : Value)
    (hm : m issuer = some old) :
    (Trust ⟨some m⟩ issuer key).2 =
      if old = key then
        (if isKeyType (normalize key) then none
         else some (.unsupportedKeyType (normalize key)))
      else some (.alreadyAdded issuer) := by
  unfold Trust
  by_cases h : old = key <;> simp [hm, h, DeepEqual]
  split_ifs <;> rfl

/-- What `Trust` returns when the issuer is not in the map. -/
theorem Trust_absent {nk : NamedKeystore} {issuer : String} (key : Value)
    (hm : ∀ m, nk.keys = some m → m issuer = none) :
    (Trust nk issuer key).2 =
      if isKeyType (normalize key) then none
      else some (.unsupportedKeyType (normalize key)) := by
  unfold Trust
  cases hk : nk.keys with
  | none => simp; split_ifs <;> rfl
  | some m => simp [hm m hk]; split_ifs <;> rfl

/-! The stored-shape invariant -/

theorem StoredKeysOnly_zero : StoredKeysOnly NamedKeystore.zero := by
  intro m hm
  simp [NamedKeystore.zero] at hm

theorem StoredKeysOnly_Trust {nk : NamedKeystore} (h : StoredKeysOnly nk)
    (issuer : String) (key : Value) : StoredKeysOnly (Trust nk issuer key).1 := by
  have hbase : ∀ j v, (match nk.keys with
      | some m => m
      | none => fun _ => none) j = some v → isKeyType v = true := by
    intro j v hv
    cases hk : nk.keys with
    | none => simp [hk] at hv
    | some m => rw [hk] at hv; exact h m hk j v hv
  unfold Trust
  dsimp only
  split_ifs with h1 h2
  · intro m hm j v hv
    simp only [Option.some.injEq] at hm
    subst hm
    exact hbase j v hv
  · intro m hm j v hv
    simp only [Option.some.injEq] at hm
    subst hm
    unfold KeyMap.set at hv
    split_ifs at hv with hj
    · simp only [Option.some.injEq] at hv
      subst hv
      exact h2
    · exact hbase j v hv
  · intro m hm j v hv
    simp only [Option.some.injEq] at hm
    subst hm
    exact hbase j v hv

theorem StoredKeysOnly_RevokeTrust {nk : NamedKeystore} (h : StoredKeysOnly nk)
    (issuer : String) : StoredKeysOnly (RevokeTrust nk issuer) := by
  unfold RevokeTrust
  cases hk : nk.keys with
  | none =>
    intro m hm
    simp [hk] at hm
  | some m0 =>
    intro m hm j v hv
    simp only [Option.some.injEq] at hm
    subst hm
    unfold KeyMap.delete at hv
    split_ifs at hv with hj
    exact h m0 hk j v hv

theorem StoredKeysOnly_step {nk : NamedKeystore} (h : StoredKeysOnly nk) (op : Op) :
    StoredKeysOnly (step nk op) := by
  cases op with
  | trust issuer key => exact StoredKeysOnly_Trust h issuer key
  | revokeTrust issuer => exact StoredKeysOnly_RevokeTrust h issuer

theorem StoredKeysOnly_run {nk : NamedKeystore} (h : StoredKeysOnly nk) (ops : List Op) :
    StoredKeysOnly (run nk ops) := by
  induction ops generalizing nk with
  | nil => exact h
  | cons op ops ih => exact ih (StoredKeysOnly_step h op)

theorem StoredKeysOnly_of_Reachable {nk : NamedKeystore} (h : Reachable nk) :
    StoredKeysOnly nk := by
  obtain ⟨ops, rfl⟩ := h
  exact StoredKeysOnly_run StoredKeysOnly_zero ops

/-- In a store that holds keys only, a lookup is nil or of a stored key type. -/
theorem Get_nil_or_isKeyType {nk : NamedKeystore} (h : StoredKeysOnly nk) (issuer : String) :
    Get nk issuer = Value.nil ∨ isKeyType (Get nk issuer) = true := by
  unfold Get
  cases hk : nk.keys with
  | none => exact Or.inl rfl
  | some m =>
    cases hv : m issuer with
    | none => left; simp [hv]
    | some v => right; simpa [hv] using h m hk issuer v hv

/-- In a store that holds keys only, `Get` is nil exactly for the issuers
that are not in the map. -/
theorem absent_of_Get_nil {nk : NamedKeystore} (h : StoredKeysOnly nk) {issuer : String}
    (hg : Get nk issuer = Value.nil) : ∀ m, nk.keys = some m → m issuer = none := by
  intro m hm
  cases hv : m issuer with
  | none => rfl
  | some v =>
    have hk := h m hm issuer v hv
    simp [Get, hm, hv] at hg
    subst hg
    simp [isKeyType] at hk

theorem present_of_Get_ne_nil {nk : NamedKeystore} {issuer : String}
    (hg : Get nk issuer ≠ Value.nil) :
    ∃ m, nk.keys = some m ∧ m issuer = some (Get nk issuer) := by
  unfold Get at hg ⊢
  cases hk : nk.keys with
  | none => simp [hk] at hg
  | some m =>
    cases hv : m issuer with
    | none => simp [hk, hv] at hg
    | some v => exact ⟨m, rfl, by simp [hv]⟩

/-- After a successful `Trust` the issuer holds the normalized key. -/
theorem Get_after_Trust_ok {nk : NamedKeystore} {issuer : String} {key : Value}
    (h : (Trust nk issuer key).2 = none) :
    Get (Trust nk issuer key).1 issuer = normalize key := by
  obtain ⟨_, m, hm⟩ := Trust_ok h
  rw [hm]
  exact Get_set_same m issuer _

theorem Reachable_testStore : Reachable testStore :=
  ⟨[Op.trust "moo" hmacKey1], rfl⟩

theorem Reachable_zero : Reachable NamedKeystore.zero := ⟨[], rfl⟩

/-! Trust followed by Get -/

/-- C1: whenever `Trust(i, k)` returns no error, the `Get(i)` that follows
returns the normalized form of `k`: the public key of a private key, the bytes
of a text, and `k` itself for a byte sequence or an RSA or EC public key; the
result is of a stored key type, so it is never the private key or the text. -/
theorem Trust_then_Get (nk : NamedKeystore) (issuer : String) (key : Value)
    (h : (Trust nk issuer key).2 = none) :
    Get (Trust nk issuer key).1 issuer = normalize key ∧
    isKeyType (Get (Trust nk issuer key).1 issuer) = true ∧
    (∀ k, key = .rsaPrivateKey k →
      Get (Trust nk issuer key).1 issuer = .rsaPublicKey k.PublicKey) ∧
    (∀ k, key = .ecdsaPrivateKey k →
      Get (Trust nk issuer key).1 issuer = .ecdsaPublicKey k.PublicKey) ∧
    (∀ t n pub, key = .signer t n pub → Get (Trust nk issuer key).1 issuer = pub) ∧
    (∀ text, key = .str text → Get (Trust nk issuer key).1 issuer = .bytes (some text)) ∧
    (isKeyType key = true → Get (Trust nk issuer key).1 issuer = key) := by
  obtain ⟨hk, m, hm⟩ := Trust_ok h
  have hg : Get (Trust nk issuer key).1 issuer = normalize key := by
    rw [hm]; exact Get_set_same m issuer _
  refine ⟨hg, ?_, ?_, ?_, ?_, ?_, ?_⟩
  · rw [hg]; exact hk
  · intro k hkey; rw [hg, hkey]; rfl
  · intro k hkey; rw [hg, hkey]; rfl
  · intro t n pub hkey; rw [hg, hkey]; rfl
  · intro text hkey; rw [hg, hkey]; rfl
  · intro hkt; rw [hg]; exact normalize_of_isKeyType hkt

theorem Trust_then_Get_witness :
    (Trust NamedKeystore.zero "bah" (.rsaPrivateKey sampleRSAPrivateKey)).2 = none ∧
    Get (Trust NamedKeystore.zero "bah" (.rsaPrivateKey sampleRSAPrivateKey)).1 "bah"
      = .rsaPublicKey ⟨3233, 17⟩ :=
  ⟨by decide,
   (Trust_then_Get NamedKeystore.zero "bah" (.rsaPrivateKey sampleRSAPrivateKey)
      (by decide)).1⟩

/-- C2: after a successful `Trust(i, k1)`, a `Trust(i, k2)` whose normalized
key differs from that of `k1` (of the same family or of another, supported or
not) returns the conflict error, and `Get(i)` is still the normalized `k1`. -/
theorem Trust_conflict (nk : NamedKeystore) (issuer : String) (k1 k2 : Value)
    (h1 : (Trust nk issuer k1).2 = none) (hne : normalize k1 ≠ normalize k2) :
    (Trust (Trust nk issuer k1).1 issuer k2).2 = some (.alreadyAdded issuer) ∧
    Get (Trust (Trust nk issuer k1).1 issuer k2).1 issuer = normalize k1 := by
  obtain ⟨hk, m, hm⟩ := Trust_ok h1
  have hold : (m.set issuer (normalize k1)) issuer = some (normalize k1) := by
    simp [KeyMap.set]
  have hk2 : normalize k1 ≠ k2 := by
    intro he
    apply hne
    rw [← he, normalize_of_isKeyType hk]
  have herr : (Trust (Trust nk issuer k1).1 issuer k2).2 = some (.alreadyAdded issuer) := by
    rw [hm, Trust_present k2 hold, if_neg hk2]
  refine ⟨herr, ?_⟩
  rw [Trust_err_Get (by rw [herr]; simp), hm]
  exact Get_set_same m issuer _

theorem Trust_conflict_witness :
    (Trust NamedKeystore.zero "moo" hmacKey1).2 = none ∧
    normalize hmacKey1 ≠ normalize (.rsaPrivateKey sampleRSAPrivateKey) ∧
    (Trust (Trust NamedKeystore.zero "moo" hmacKey1).1 "moo"
      (.rsaPrivateKey sampleRSAPrivateKey)).2 = some (.alreadyAdded "moo") ∧
    Get (Trust (Trust NamedKeystore.zero "moo" hmacKey1).1 "moo"
      (.rsaPrivateKey sampleRSAPrivateKey)).1 "moo" = normalize hmacKey1 :=
  ⟨by decide, by decide,
   Trust_conflict NamedKeystore.zero "moo" hmacKey1 (.rsaPrivateKey sampleRSAPrivateKey)
     (by decide) (by decide)⟩

/-- C3: on the zero-value store, `Trust("bah", k)` succeeds and a second
`Trust("bah", k)` with the same `k` returns the conflict error, both for the
text "this should be bytes" and for an RSA private key: the stored value is
the converted key, and line 47 compares it with the key as passed in. -/
theorem Trust_twice_converted_key_conflicts :
    (Trust NamedKeystore.zero "bah" (.str (utf8 "this should be bytes"))).2 = none ∧
    (Trust (Trust NamedKeystore.zero "bah" (.str (utf8 "this should be bytes"))).1 "bah"
      (.str (utf8 "this should be bytes"))).2 = some (.alreadyAdded "bah") ∧
    (Trust NamedKeystore.zero "bah" (.rsaPrivateKey sampleRSAPrivateKey)).2 = none ∧
    (Trust (Trust NamedKeystore.zero "bah" (.rsaPrivateKey sampleRSAPrivateKey)).1 "bah"
      (.rsaPrivateKey sampleRSAPrivateKey)).2 = some (.alreadyAdded "bah") := by
  decide

/-- For a key of a stored type the re-assertion does succeed, and leaves
every lookup as the first call left it. -/
theorem Trust_twice_of_isKeyType (nk : NamedKeystore) (issuer : String) (key : Value)
    (hk : isKeyType key = true) (h1 : (Trust nk issuer key).2 = none) :
    (Trust (Trust nk issuer key).1 issuer key).2 = none ∧
    ∀ j, Get (Trust (Trust nk issuer key).1 issuer key).1 j = Get (Trust nk issuer key).1 j := by
  obtain ⟨hkn, m, hm⟩ := Trust_ok h1
  have hn : normalize key = key := normalize_of_isKeyType hk
  have hold : (m.set issuer (normalize key)) issuer = some key := by
    simp [KeyMap.set, hn]
  have hok : (Trust (Trust nk issuer key).1 issuer key).2 = none := by
    rw [hm, Trust_present key hold, if_pos rfl, if_pos hkn]
  refine ⟨hok, fun j => ?_⟩
  by_cases hj : j = issuer
  · subst hj
    rw [(Get_after_Trust_ok hok), (Get_after_Trust_ok h1)]
  · exact Trust_Get_other _ key hj

/-! Rejection of unsupported values -/

/-- C4, as stated, fails: a value of a caller-defined type whose `Public()`
returns a byte sequence is not among the listed shapes, yet `Trust` on the
zero-value store returns no error and `Get` changes from nil to those bytes. -/
theorem Trust_accepts_signer_of_bytes :
    isListedShape sampleByteSigner = false ∧
    (Trust NamedKeystore.zero "bah" sampleByteSigner).2 = none ∧
    Get NamedKeystore.zero "bah" = Value.nil ∧
    Get (Trust NamedKeystore.zero "bah" sampleByteSigner).1 "bah" = hmacKey1 := by
  decide

/-- C4, amended: for every store, issuer `i` and value `v` that is not a byte
sequence, a text, an RSA or EC public key, or a value with a method `Public()`
returning a byte sequence or an RSA or EC public key, `Trust(i, v)` returns an
error and `Get` afterwards equals `Get` before, for `i` and every issuer. -/
theorem Trust_rejects_unsupported (nk : NamedKeystore) (issuer : String) (v : Value)
    (h : isSupported v = false) :
    (Trust nk issuer v).2 ≠ none ∧
    Get (Trust nk issuer v).1 issuer = Get nk issuer ∧
    ∀ j, Get (Trust nk issuer v).1 j = Get nk j := by
  have herr : (Trust nk issuer v).2 ≠ none := by
    intro hok
    have := (Trust_ok hok).1
    rw [← isSupported_iff, h] at this
    exact Bool.false_ne_true this
  exact ⟨herr, Trust_err_Get herr issuer, Trust_err_Get herr⟩

theorem Trust_rejects_unsupported_witness :
    isSupported (Value.int 666) = false ∧
    (Trust testStore "bah" (Value.int 666)).2 ≠ none ∧
    Get (Trust testStore "bah" (Value.int 666)).1 "bah" = Get testStore "bah" :=
  ⟨by decide,
   (Trust_rejects_unsupported testStore "bah" (Value.int 666) (by decide)).1,
   (Trust_rejects_unsupported testStore "bah" (Value.int 666) (by decide)).2.1⟩

/-- C5, as stated, fails: in the store of the test suite, where "moo" holds
`hmacKey1`, `Trust("moo", 666)` returns the conflict error and not the
unsupported-key-type error. -/
theorem Trust_present_unsupported_conflicts :
    isSupported (Value.int 666) = false ∧
    Get testStore "moo" = hmacKey1 ∧
    (Trust testStore "moo" (Value.int 666)).2 = some (.alreadyAdded "moo") ∧
    ∀ t, (Trust testStore "moo" (Value.int 666)).2 ≠ some (.unsupportedKeyType t) := by
  refine ⟨by decide, by decide, by decide, ?_⟩
  intro t
  have h : (Trust testStore "moo" (Value.int 666)).2 = some (.alreadyAdded "moo") := by decide
  rw [h]
  simp

/-- C5, amended: the conflict check precedes type validation.  In every
reachable store, `Trust(i, v)` with `v` of an unsupported shape fails with the
unsupported-key-type error when `i` has no trusted key, and with the conflict
error when `i` already has one. -/
theorem Trust_unsupported_error_kind (nk : NamedKeystore) (issuer : String) (v : Value)
    (hr : Reachable nk) (h : isSupported v = false) :
    (Get nk issuer = Value.nil →
      (Trust nk issuer v).2 = some (.unsupportedKeyType (normalize v))) ∧
    (Get nk issuer ≠ Value.nil →
      (Trust nk issuer v).2 = some (.alreadyAdded issuer)) := by
  have hinv := StoredKeysOnly_of_Reachable hr
  have hkt : isKeyType (normalize v) = false := by rw [← isSupported_iff]; exact h
  constructor
  · intro hg
    rw [Trust_absent v (absent_of_Get_nil hinv hg), hkt]
    simp
  · intro hg
    obtain ⟨m, hm, hv⟩ := present_of_Get_ne_nil hg
    have hold : isKeyType (Get nk issuer) = true := hinv m hm issuer _ hv
    have hne : Get nk issuer ≠ v := by
      intro he
      rw [he] at hold
      rw [normalize_of_isKeyType hold, hold] at hkt
      exact Bool.noConfusion hkt
    have hnk : nk = ⟨some m⟩ := by cases nk; simp_all
    rw [hnk] at hne ⊢
    rw [hnk] at hv
    rw [Trust_present v hv, if_neg hne]

theorem Trust_unsupported_error_kind_witness :
    Reachable testStore ∧ isSupported (Value.int 666) = false ∧
    (Trust testStore "bah" (Value.int 666)).2
      = some (.unsupportedKeyType (Value.int 666)) ∧
    (Trust testStore "moo" (Value.int 666)).2 = some (.alreadyAdded "moo") :=
  ⟨Reachable_testStore, by decide,
   (Trust_unsupported_error_kind testStore "bah" (Value.int 666)
      Reachable_testStore (by decide)).1 (by decide),
   (Trust_unsupported_error_kind testStore "moo" (Value.int 666)
      Reachable_testStore (by decide)).2 (by decide)⟩

/-! Acceptance, overwriting and the stored shapes -/

/-- C6: in every reachable store, the zero-value store included, and for every
issuer `i` that has no key in it, `Trust(i, k)` returns no error for every `k`
that is a byte sequence, a text, an RSA or EC public key, or an RSA or EC
private key. -/
theorem Trust_accepts (nk : NamedKeystore) (issuer : String) (k : Value)
    (hr : Reachable nk) (habs : Get nk issuer = Value.nil)
    (hk : isAcceptedShape k = true) :
    (Trust nk issuer k).2 = none := by
  have hinv := StoredKeysOnly_of_Reachable hr
  have hkt : isKeyType (normalize k) = true := by
    rw [← isSupported_iff]; exact isSupported_of_isAcceptedShape hk
  rw [Trust_absent k (absent_of_Get_nil hinv habs), if_pos hkt]

theorem Trust_accepts_witness :
    Reachable NamedKeystore.zero ∧ Get NamedKeystore.zero "oink" = Value.nil ∧
    isAcceptedShape (.ecdsaPrivateKey sampleECDSAPrivateKey) = true ∧
    (Trust NamedKeystore.zero "oink" (.ecdsaPrivateKey sampleECDSAPrivateKey)).2 = none :=
  ⟨Reachable_zero, by decide, by decide,
   Trust_accepts NamedKeystore.zero "oink" (.ecdsaPrivateKey sampleECDSAPrivateKey)
     Reachable_zero (by decide) (by decide)⟩

/-- C7: in every reachable store in which issuer `i` has key `k0`, `Get(i)` is
still `k0` after `Trust(i, v)` for every value `v`, whether the call fails or
not; and of all calls, on any issuer, only `RevokeTrust(i)` can change what
`Get(i)` returns. -/
theorem Trust_never_overwrites (nk : NamedKeystore) (issuer : String) (k0 : Value)
    (hr : Reachable nk) (hget : Get nk issuer = k0) (hk0 : k0 ≠ Value.nil) :
    (∀ v, Get (Trust nk issuer v).1 issuer = k0) ∧
    (∀ op, op ≠ Op.revokeTrust issuer → Get (step nk op) issuer = k0) := by
  have hinv := StoredKeysOnly_of_Reachable hr
  have hsame : ∀ v, Get (Trust nk issuer v).1 issuer = k0 := by
    intro v
    cases herr : (Trust nk issuer v).2 with
    | some e =>
      rw [Trust_err_Get (by rw [herr]; simp), hget]
    | none =>
      rw [Get_after_Trust_ok herr]
      obtain ⟨m, hm, hv⟩ := present_of_Get_ne_nil (by rw [hget]; exact hk0)
      rw [hget] at hv
      have hnk : nk = ⟨some m⟩ := by cases nk; simp_all
      have hres := @Trust_present m issuer k0 v hv
      rw [← hnk, herr] at hres
      by_cases he : k0 = v
      · subst he
        exact normalize_of_isKeyType (hinv m hm issuer _ hv)
      · rw [if_neg he] at hres
        simp at hres
  refine ⟨hsame, ?_⟩
  intro op hop
  cases op with
  | trust j v =>
    by_cases hj : issuer = j
    · subst hj
      exact hsame v
    · show Get (Trust nk j v).1 issuer = k0
      rw [Trust_Get_other nk v hj, hget]
  | revokeTrust j =>
    have hj : issuer ≠ j := by
      intro he
      apply hop
      rw [he]
    show Get (RevokeTrust nk j) issuer = k0
    rw [RevokeTrust_Get_other nk hj, hget]

theorem Trust_never_overwrites_witness :
    Reachable testStore ∧ Get testStore "moo" = hmacKey1 ∧ hmacKey1 ≠ Value.nil ∧
    Get (Trust testStore "moo" hmacKey2).1 "moo" = hmacKey1 ∧
    Get (step testStore (Op.revokeTrust "bah")) "moo" = hmacKey1 :=
  ⟨Reachable_testStore, by decide, by decide,
   (Trust_never_overwrites testStore "moo" hmacKey1 Reachable_testStore
      (by decide) (by decide)).1 hmacKey2,
   (Trust_never_overwrites testStore "moo" hmacKey1 Reachable_testStore
      (by decide) (by decide)).2 (Op.revokeTrust "bah") (by decide)⟩

/-- C8: in every state reached from the zero-value store by a finite sequence
of `Trust` and `RevokeTrust` calls with arbitrary arguments, `Get(i)` is, for
every issuer `i`, nil, a byte sequence, an RSA public key or an EC public key. -/
theorem Get_stored_shape (ops : List Op) (issuer : String) :
    Get (run NamedKeystore.zero ops) issuer = Value.nil ∨
    (∃ b, Get (run NamedKeystore.zero ops) issuer = Value.bytes b) ∨
    (∃ k, Get (run NamedKeystore.zero ops) issuer = Value.rsaPublicKey k) ∨
    (∃ k, Get (run NamedKeystore.zero ops) issuer = Value.ecdsaPublicKey k) := by
  rcases Get_nil_or_isKeyType (StoredKeysOnly_run StoredKeysOnly_zero ops) issuer with h | h
  · exact Or.inl h
  · right
    cases hv : Get (run NamedKeystore.zero ops) issuer <;> simp_all [isKeyType]

/-! Revocation -/

/-- C9: for every store and every issuer `i`, present or not, `RevokeTrust(i)`
yields a store in which `Get(i)` returns nil. -/
theorem RevokeTrust_then_Get (nk : NamedKeystore) (issuer : String) :
    Get (RevokeTrust nk issuer) issuer = Value.nil := by
  unfold RevokeTrust
  cases hk : nk.keys <;> simp [Get, hk, KeyMap.delete]

/-- C10: after a successful `Trust(i, k1)` followed by `RevokeTrust(i)`,
`Trust(i, k2)` succeeds for every `k2` of an accepted shape, equal to `k1` or
not, and `Get(i)` is then the normalized `k2`. -/
theorem Trust_after_RevokeTrust (nk : NamedKeystore) (issuer : String) (k1 k2 : Value)
    (h1 : (Trust nk issuer k1).2 = none) (hk2 : isAcceptedShape k2 = true) :
    (Trust (RevokeTrust (Trust nk issuer k1).1 issuer) issuer k2).2 = none ∧
    Get (Trust (RevokeTrust (Trust nk issuer k1).1 issuer) issuer k2).1 issuer
      = normalize k2 := by
  obtain ⟨_, m, hm⟩ := Trust_ok h1
  have hkt : isKeyType (normalize k2) = true := by
    rw [← isSupported_iff]; exact isSupported_of_isAcceptedShape hk2
  have hok : (Trust (RevokeTrust (Trust nk issuer k1).1 issuer) issuer k2).2 = none := by
    rw [Trust_absent k2, if_pos hkt]
    intro m2 hm2
    rw [hm] at hm2
    simp only [RevokeTrust, Option.some.injEq] at hm2
    subst hm2
    simp [KeyMap.delete]
  exact ⟨hok, Get_after_Trust_ok hok⟩

theorem Trust_after_RevokeTrust_witness :
    (Trust NamedKeystore.zero "moo" hmacKey1).2 = none ∧
    isAcceptedShape (.str (utf8 "secret")) = true ∧
    (Trust (RevokeTrust (Trust NamedKeystore.zero "moo" hmacKey1).1 "moo") "moo"
      (.str (utf8 "secret"))).2 = none ∧
    Get (Trust (RevokeTrust (Trust NamedKeystore.zero "moo" hmacKey1).1 "moo") "moo"
      (.str (utf8 "secret"))).1 "moo" = normalize (.str (utf8 "secret")) :=
  ⟨by decide, by decide,
   Trust_after_RevokeTrust NamedKeystore.zero "moo" hmacKey1 (.str (utf8 "secret"))
     (by decide) (by decide)⟩

/-! The zero value and the frame of each call -/

/-- C11: on the zero-value store, whose map was never created, `Get(i)` is nil
for every issuer `i`, and `RevokeTrust(i)` returns, leaving the map nil and
`Get(j)` nil for every issuer `j`. -/
theorem zero_value_usable (i j : String) :
    Get NamedKeystore.zero i = Value.nil ∧
    (RevokeTrust NamedKeystore.zero i).keys = none ∧
    Get (RevokeTrust NamedKeystore.zero i) j = Value.nil := by
  refine ⟨rfl, rfl, rfl⟩

/-- C16: for every store, every pair of distinct issuers `i` and `j` (strings
compared exactly) and every value `v`, neither `Trust(i, v)`, failing or not,
nor `RevokeTrust(i)` changes what `Get(j)` returns. -/
theorem calls_frame (nk : NamedKeystore) (i j : String) (v : Value) (hij : i ≠ j) :
    Get (Trust nk i v).1 j = Get nk j ∧
    Get (RevokeTrust nk i) j = Get nk j :=
  ⟨Trust_Get_other nk v (Ne.symm hij), RevokeTrust_Get_other nk (Ne.symm hij)⟩

theorem calls_frame_witness :
    "Moo" ≠ "moo" ∧
    Get (Trust testStore "Moo" hmacKey2).1 "moo" = Get testStore "moo" ∧
    Get (RevokeTrust testStore "Moo") "moo" = Get testStore "moo" :=
  ⟨by decide, calls_frame testStore "Moo" "moo" hmacKey2 (by decide)⟩

/-! The conflict check on the value as passed in -/

/-- A `Trust` that meets a value that is not deeply equal returns the conflict
error and the map as it was. -/
theorem Trust_of_ne {m : KeyMap} {issuer : String} {old : Value} (key : Value)
    (hm : m issuer = some old) (hne : old ≠ key) :
    Trust ⟨some m⟩ issuer key = (⟨some m⟩, some (.alreadyAdded issuer)) := by
  unfold Trust
  simp [hm, hne, DeepEqual]

/-- C15: in every reachable store in which issuer `i` has key `k0`, and for
every value `v`, `Trust(i, v)` returns no error exactly when `v` as passed in
is deep-equal to `k0`; when it is not, the call returns the conflict error and
changes no lookup, whatever the shape of `v`. -/
theorem Trust_checks_raw_key (nk : NamedKeystore) (issuer : String) (k0 v : Value)
    (hr : Reachable nk) (hget : Get nk issuer = k0) (hk0 : k0 ≠ Value.nil) :
    ((Trust nk issuer v).2 = none ↔ DeepEqual k0 v = true) ∧
    (DeepEqual k0 v = false →
      (Trust nk issuer v).2 = some (.alreadyAdded issuer) ∧
      ∀ j, Get (Trust nk issuer v).1 j = Get nk j) := by
  have hinv := StoredKeysOnly_of_Reachable hr
  obtain ⟨m, hm, hv⟩ := present_of_Get_ne_nil (by rw [hget]; exact hk0)
  rw [hget] at hv
  have hnk : nk = ⟨some m⟩ := by cases nk; simp_all
  have hkey : isKeyType k0 = true := hinv m hm issuer _ hv
  have hres := @Trust_present m issuer k0 v hv
  rw [← hnk] at hres
  constructor
  · rw [DeepEqual_iff]
    constructor
    · intro hok
      by_contra hne
      rw [hok, if_neg hne] at hres
      simp at hres
    · intro he
      subst he
      rw [hres, if_pos rfl, normalize_of_isKeyType hkey, if_pos hkey]
  · intro hd
    have hne : k0 ≠ v := by
      intro he
      rw [(DeepEqual_iff k0 v).2 he] at hd
      exact Bool.noConfusion hd
    have herr : (Trust nk issuer v).2 = some (.alreadyAdded issuer) := by
      rw [hres, if_neg hne]
    exact ⟨herr, Trust_err_Get (by rw [herr]; simp)⟩

theorem Trust_checks_raw_key_witness :
    Reachable testStore ∧ Get testStore "moo" = hmacKey1 ∧ hmacKey1 ≠ Value.nil ∧
    ((Trust testStore "moo" (.str (utf8 "I like tacos"))).2 = none ↔
      DeepEqual hmacKey1 (.str (utf8 "I like tacos")) = true) ∧
    (Trust testStore "moo" (.str (utf8 "I like tacos"))).2 = some (.alreadyAdded "moo") :=
  ⟨Reachable_testStore, by decide, by decide,
   (Trust_checks_raw_key testStore "moo" hmacKey1 (.str (utf8 "I like tacos"))
      Reachable_testStore (by decide) (by decide)).1,
   ((Trust_checks_raw_key testStore "moo" hmacKey1 (.str (utf8 "I like tacos"))
      Reachable_testStore (by decide) (by decide)).2 (by decide)).1⟩

/-! Serial orders of competing Trust calls -/

/-- Once the issuer holds `old`, a series of `Trust` calls with values that
are all different from `old` fails call by call and leaves the map alone. -/
theorem trustAll_of_ne {m : KeyMap} {issuer : String} {old : Value}
    (hm : m issuer = some old) (ks : List Value) (hne : ∀ k ∈ ks, old ≠ k) :
    trustAll ⟨some m⟩ issuer ks =
      (⟨some m⟩, List.replicate ks.length (some (.alreadyAdded issuer))) := by
  induction ks with
  | nil => rfl
  | cons k ks ih =>
    have hk : old ≠ k := hne k (List.mem_cons_self k ks)
    have hrest : ∀ k' ∈ ks, old ≠ k' := fun k' hk' => hne k' (List.mem_cons_of_mem k hk')
    simp only [trustAll, Trust_of_ne k hm hk, ih hrest, List.length_cons, List.replicate_succ]

/-- A key whose normalized form differs from a stored key is itself different
from that stored key. -/
theorem ne_of_normalize_ne {old k : Value} (hold : isKeyType old = true)
    (h : old ≠ normalize k) : old ≠ k := by
  intro he
  apply h
  rw [← he, normalize_of_isKeyType hold]

/-- C12: let `ks` be `N >= 1` keys of accepted shapes whose normalized forms
are pairwise different, and let the issuer have no key in a reachable store.
In every serial order in which the `N` calls `Trust(issuer, k)` take effect,
exactly one call succeeds (the first of that order), the other `N - 1` return
the conflict error, and `Get(issuer)` ends as the normalized key of the call
that succeeded. -/
theorem Trust_serial_orders (nk : NamedKeystore) (issuer : String) (ks order : List Value)
    (hr : Reachable nk) (habs : Get nk issuer = Value.nil) (hN : 1 ≤ ks.length)
    (hshape : ∀ k ∈ ks, isAcceptedShape k = true)
    (hdiff : ks.Pairwise (fun a b => normalize a ≠ normalize b))
    (hperm : order.Perm ks) :
    (trustAll nk issuer order).2.length = ks.length ∧
    (trustAll nk issuer order).2.count none = 1 ∧
    (trustAll nk issuer order).2.count (some (.alreadyAdded issuer)) = ks.length - 1 ∧
    ∃ k rest, order = k :: rest ∧
      (trustAll nk issuer order).2 =
        none :: List.replicate rest.length (some (.alreadyAdded issuer)) ∧
      Get (trustAll nk issuer order).1 issuer = normalize k := by
  have hinv := StoredKeysOnly_of_Reachable hr
  have hlen : order.length = ks.length := hperm.length_eq
  cases order with
  | nil =>
    simp only [List.length_nil] at hlen
    omega
  | cons k rest =>
    have hk : isAcceptedShape k = true :=
      hshape k (hperm.mem_iff.1 (List.mem_cons_self k rest))
    have hkt : isKeyType (normalize k) = true := by
      rw [← isSupported_iff]; exact isSupported_of_isAcceptedShape hk
    have hok : (Trust nk issuer k).2 = none := by
      rw [Trust_absent k (absent_of_Get_nil hinv habs), if_pos hkt]
    obtain ⟨_, m, hm⟩ := Trust_ok hok
    have hpw : (k :: rest).Pairwise (fun a b => normalize a ≠ normalize b) :=
      hperm.symm.pairwise hdiff (fun h => Ne.symm h)
    have hrest : ∀ k' ∈ rest, normalize k ≠ k' := fun k' hk' =>
      ne_of_normalize_ne hkt ((List.pairwise_cons.1 hpw).1 k' hk')
    have hold : (m.set issuer (normalize k)) issuer = some (normalize k) := by
      simp [KeyMap.set]
    have hall : trustAll nk issuer (k :: rest) =
        (⟨some (m.set issuer (normalize k))⟩,
          none :: List.replicate rest.length (some (.alreadyAdded issuer))) := by
      simp only [trustAll, hok, hm, trustAll_of_ne hold rest hrest]
    have hlen2 : rest.length = ks.length - 1 := by
      simp only [List.length_cons] at hlen
      omega
    rw [hall]
    refine ⟨?_, ?_, ?_, k, rest, rfl, rfl, Get_set_same m issuer _⟩
    · simp only [List.length_cons, List.length_replicate]
      omega
    · simp [List.count_cons, List.count_replicate]
    · simp [List.count_cons, List.count_replicate, hlen2]

theorem Trust_serial_orders_witness :
    Reachable NamedKeystore.zero ∧
    (trustAll NamedKeystore.zero "moo"
      [.rsaPrivateKey sampleRSAPrivateKey, hmacKey1, .str (utf8 "secret")]).2
      = [none, some (.alreadyAdded "moo"), some (.alreadyAdded "moo")] ∧
    (trustAll NamedKeystore.zero "moo"
      [.rsaPrivateKey sampleRSAPrivateKey, hmacKey1, .str (utf8 "secret")]).2.count none = 1 ∧
    (trustAll NamedKeystore.zero "moo"
      [.rsaPrivateKey sampleRSAPrivateKey, hmacKey1, .str (utf8 "secret")]).2.length = 3 :=
  ⟨Reachable_zero, by decide,
   (Trust_serial_orders NamedKeystore.zero "moo"
      [hmacKey1, .str (utf8 "secret"), .rsaPrivateKey sampleRSAPrivateKey]
      [.rsaPrivateKey sampleRSAPrivateKey, hmacKey1, .str (utf8 "secret")]
      Reachable_zero (by decide) (by decide) (by decide) (by decide) (by decide)).2.1,
   (Trust_serial_orders NamedKeystore.zero "moo"
      [hmacKey1, .str (utf8 "secret"), .rsaPrivateKey sampleRSAPrivateKey]
      [.rsaPrivateKey sampleRSAPrivateKey, hmacKey1, .str (utf8 "secret")]
      Reachable_zero (by decide) (by decide) (by decide) (by decide) (by decide)).1⟩

/-! The fixed keystore -/

theorem SimpleKeystore.Key_Trust (sk : SimpleKeystore) (issuer : String) (key : Value) :
    (sk.Trust issuer key).1.Key = sk.Key := by
  unfold SimpleKeystore.Trust
  split_ifs <;> rfl

theorem SimpleKeystore.Key_step (sk : SimpleKeystore) (op : Op) :
    (sk.step op).Key = sk.Key := by
  cases op with
  | trust issuer key => exact SimpleKeystore.Key_Trust sk issuer key
  | revokeTrust issuer => rfl

theorem SimpleKeystore.Key_run (sk : SimpleKeystore) (ops : List Op) :
    (sk.run ops).Key = sk.Key := by
  induction ops generalizing sk with
  | nil => rfl
  | cons op ops ih =>
    show ((sk.step op).run ops).Key = sk.Key
    rw [ih (sk.step op), SimpleKeystore.Key_step]

/-- C13: for a fixed keystore constructed with key `K`, `Get(i)` returns `K`
for every issuer `i`, and still does after any sequence of `Trust` and
`RevokeTrust` calls with arbitrary arguments. -/
theorem SimpleKeystore_Get_fixed (K : Value) (ops : List Op) (i j : String) (v : Value) :
    (SimpleKeystore.mk K).Get i = K ∧
    ((SimpleKeystore.mk K).run ops).Get i = K ∧
    ((SimpleKeystore.mk K).Trust j v).1.Get i = K ∧
    ((SimpleKeystore.mk K).RevokeTrust j).Get i = K := by
  refine ⟨rfl, ?_, ?_, rfl⟩
  · exact SimpleKeystore.Key_run ⟨K⟩ ops
  · exact SimpleKeystore.Key_Trust ⟨K⟩ j v

/-- C14: for a fixed keystore constructed with key `K`, every issuer `i` and
every key `k`, `Trust(i, k)` succeeds exactly when `k` is equal by value to
`K`; it otherwise returns the conflict error; and the outcome is the same for
every other issuer `j`. -/
theorem SimpleKeystore_Trust_iff (K k : Value) (i j : String) :
    (((SimpleKeystore.mk K).Trust i k).2 = none ↔ k = K) ∧
    (((SimpleKeystore.mk K).Trust i k).2 = none ∨
      ((SimpleKeystore.mk K).Trust i k).2 = some SimpleTrustError.conflict) ∧
    ((SimpleKeystore.mk K).Trust j k).2 = ((SimpleKeystore.mk K).Trust i k).2 := by
  unfold SimpleKeystore.Trust
  by_cases h : k = K
  · simp [DeepEqual, h]
  · simp [DeepEqual, h]

theorem SimpleKeystore_Trust_iff_witness :
    (simpleTestStore.Trust "oink" (.bytes (some (utf8 "I like tacos")))).2 = none ∧
    (simpleTestStore.Trust "moo" hmacKey2).2 = some SimpleTrustError.conflict :=
  ⟨((SimpleKeystore_Trust_iff hmacKey1 (.bytes (some (utf8 "I like tacos")))
      "oink" "moo").1).2 (by decide),
   by decide⟩

end Jwtauth
